import Mathlib

/-!
Verification of the PAW / plane-wave Coulomb-integral core of
`coulomb_integral.py` (classes `PAWCoulombIntegral` and `PWCoulombIntegral`).

Floating-point numbers are embedded as real numbers.  Per-species data that
the PAW-potential reader supplies (radial grid, Simpson weights, augmentation
cutoff, projector channels, partial-wave tables, the stored compensation
charge table) is a `Species` record.  External collaborators (the Gaunt
coefficient table, `scipy`'s spherical Bessel functions and quadrature, the
FFT primitive) enter as function parameters.
-/

open ComplexConjugate

noncomputable section

/-- Type of the external Gaunt-coefficient table `GauntTable(l1, l2, l, m1, m2, m)`. -/
def GauntFun : Type := ℕ → ℕ → ℕ → ℤ → ℤ → ℤ → ℝ

/-- Per-species data held by a `PAWCoulombIntegral` object: the radial grid and
Simpson weights, the augmentation radius `rcomp` with its grid index, the
projector angular momenta `proj_l`, the all-electron and pseudo partial-wave
tables, the channel list `ilm` (triples `(n, l, m)`), and the stored
compensation-charge table `gl` (set by `set_comp_function`). -/
structure Species where
  ngrid : ℕ
  rgrid : ℕ → ℝ
  rad_simp_w : ℕ → ℝ
  rcomp : ℝ
  rcomp_idx : ℕ
  proj_l : List ℕ
  paw_ae_wfc : ℕ → ℕ → ℝ
  paw_ps_wfc : ℕ → ℕ → ℝ
  ilm : ℕ → ℕ × ℕ × ℤ
  gl : ℕ → ℕ → ℝ

/-- `lmax = self.proj_l.max() * 2 + 1`, the number of multipole channels. -/
def Species.lmax (sp : Species) : ℕ :=
  2 * sp.proj_l.foldr max 0 + 1

/-- The `lmidx` enumeration of `(l, m)` pairs, lexicographic in `l` then `m`
(`for l in range(lmax) for m in range(-l, l+1)`). -/
def lmidx (sp : Species) : List (ℕ × ℤ) :=
  (List.range sp.lmax).flatMap fun l =>
    (List.range (2 * l + 1)).map fun k => (l, (k : ℤ) - (l : ℤ))

/-- Modelled from the spec: `radial_simp_int` lives in the external
PAW-potential reader (`paw.py`, not under `src/`).  It is Simpson-rule
quadrature on the radial grid — the weighted sum of the sampled integrand
against the Simpson weights `rad_simp_w` — and with `inside_rcomp = True` the
sum is restricted to grid points strictly inside the augmentation sphere
(index `< rcomp_idx`). -/
def radial_simp_int (sp : Species) (f : ℕ → ℝ) (inside_rcomp : Bool) : ℝ :=
  if inside_rcomp then
    ∑ i in Finset.range sp.rcomp_idx, sp.rad_simp_w i * f i
  else
    ∑ i in Finset.range sp.ngrid, sp.rad_simp_w i * f i

/-- The multipole radial kernel `r_<^l / r_>^(l+1)` built from `r_l` and `r_g`
(`np.minimum` / `np.maximum` of the grid against itself). -/
def rkern (sp : Species) (l i j : ℕ) : ℝ :=
  min (sp.rgrid i) (sp.rgrid j) ^ l / max (sp.rgrid i) (sp.rgrid j) ^ (l + 1)

/-- The Gaunt pruning threshold `1E-6` used by the assembly loops. -/
def gaunt_eps : ℝ := 1 / 1000000

/-! ### `set_comp_function`: the compensation charge -/

/-- The bracket-expansion loop inside `find_q`: starting from the interval
`[x1, x2]` with `fx1 = j_L(x1)` fixed, step `x2` by `1.0` until
`fx1 * j_L(x2) ≤ 0`.  The source's `while` loop is embedded with explicit
fuel; the value `none` means the loop has not terminated within `fuel`
iterations (the source has no failure branch at all).  Rationals stand in for
the floating-point iterates, and the external `spherical_jn L` is the
function parameter `f`. -/
def expand_bracket (f : ℚ → ℚ) (fx1 : ℚ) : ℚ → ℕ → Option ℚ
  | _, 0 => none
  | x2, fuel + 1 =>
    if fx1 * f x2 > 0 then expand_bracket f fx1 (x2 + 1) fuel else some x2

/-- Gaussian elimination on the 2×2 system `[[a,b],[c,d]] · x = (e,f)`
(the model of `scipy.linalg.solve` on the system built in `find_alpha`). -/
def solve2 (a b c d e f : ℝ) : ℝ × ℝ :=
  ((e * d - b * f) / (a * d - b * c), (a * f - e * c) / (a * d - b * c))

/-- `find_alpha(R, q, l)`: build the 2×2 system whose first row is the
derivative condition `q_i · j_l'(q_i R)` with right-hand side `0` and whose
second row is the weighted integral `∫₀^R j_l(q_i r) r^(l+2) dr` with
right-hand side `1`, and solve it.  `sjnD` is the external
`spherical_jn(·, ·, derivative=True)` and `intJ R q l` is the external
32-point Gaussian quadrature `glr_int` of `∫₀^R j_l(q x) x^(l+2) dx`. -/
def find_alpha (sjnD : ℕ → ℝ → ℝ) (intJ : ℝ → ℝ → ℕ → ℝ)
    (R q1 q2 : ℝ) (l : ℕ) : ℝ × ℝ :=
  solve2 (q1 * sjnD l (q1 * R)) (q2 * sjnD l (q2 * R))
    (intJ R q1 l) (intJ R q2 l) 0 1

/-- The table stored by `set_comp_function`:
`gl[l] = a1 * j_l(q1 * rgrid) + a2 * j_l(q2 * rgrid)` followed by
`gl[:, rcomp_idx:] = 0`.  `sjn` is the external `spherical_jn`, and `a l`,
`q l` are the coefficients and wavevectors obtained for multipole `l`. -/
def set_comp_function_gl (sp : Species) (sjn : ℕ → ℝ → ℝ)
    (a q : ℕ → ℝ × ℝ) : ℕ → ℕ → ℝ :=
  fun l i =>
    if sp.rcomp_idx ≤ i then 0
    else (a l).1 * sjn l ((q l).1 * sp.rgrid i)
       + (a l).2 * sjn l ((q l).2 * sp.rgrid i)

/-! ### `get_Delta_Li1i2`: multipole moment mismatch -/

/-- The radial part of `get_Delta_Li1i2`:
`radial_simp_int(r^l * (phi_ae_n1 * phi_ae_n2 - phi_ps_n1 * phi_ps_n2))`. -/
def delta_radial (sp : Species) (l n1 n2 : ℕ) : ℝ :=
  radial_simp_int sp
    (fun i => sp.rgrid i ^ l *
      (sp.paw_ae_wfc n1 i * sp.paw_ae_wfc n2 i -
       sp.paw_ps_wfc n1 i * sp.paw_ps_wfc n2 i))
    false

/-- `Delta_Li1i2[iL, i1, i2] = radial_integral[l, n1, n2] * GauntTable(l1, l2, l, m1, m2, m)`
where `(l, m) = lmidx[iL]`, `(n1, l1, m1) = ilm[i1]`, `(n2, l2, m2) = ilm[i2]`. -/
def get_Delta_Li1i2 (sp : Species) (G : GauntFun) (iL i1 i2 : ℕ) : ℝ :=
  let lm := (lmidx sp).getD iL (0, 0)
  let c1 := sp.ilm i1
  let c2 := sp.ilm i2
  delta_radial sp lm.1 c1.1 c2.1 * G c1.2.1 c2.2.1 lm.1 c1.2.2 c2.2.2 lm.2

/-! ### `get_integral_1234`: the four-center integral -/

/-- The radial part of `get_integral_1234`: for each grid point `r'`,
Simpson-integrate `wav_n1(r) * wav_n2(r) * r_<^l / r_>^(l+1)` over `r` (the
whole grid), multiply by `wav_n3(r') * wav_n4(r')` and the Simpson weight of
`r'`, and sum over `r'`. -/
def radial_integral_1234 (sp : Species) (wav : ℕ → ℕ → ℝ)
    (l n1 n2 n3 n4 : ℕ) : ℝ :=
  ∑ irp in Finset.range sp.ngrid,
    radial_simp_int sp (fun i => wav n1 i * wav n2 i * rkern sp l irp i) false
      * wav n3 irp * wav n4 irp * sp.rad_simp_w irp

/-- The assembly loop of `get_integral_1234` for a given partial-wave table
`wav`: sum over `(l, m)` in `lmidx` of
`4π/(2l+1) * radial_integral[l,n1,n2,n3,n4] * G12 * G34`, skipping the term
when `|G12| < 1e-6`. -/
def integral_1234_wav (sp : Species) (G : GauntFun) (wav : ℕ → ℕ → ℝ)
    (i1 i2 i3 i4 : ℕ) : ℝ :=
  ((lmidx sp).map fun lm =>
    let c1 := sp.ilm i1
    let c2 := sp.ilm i2
    let c3 := sp.ilm i3
    let c4 := sp.ilm i4
    let G12 := G c1.2.1 c2.2.1 lm.1 c1.2.2 c2.2.2 lm.2
    if |G12| < gaunt_eps then 0
    else 4 * Real.pi / (2 * (lm.1 : ℝ) + 1)
         * radial_integral_1234 sp wav lm.1 c1.1 c2.1 c3.1 c4.1
         * G12 * G c3.2.1 c4.2.1 lm.1 c3.2.2 c4.2.2 lm.2).sum

/-- `get_integral_1234(use_ps_wav)`: the source selects `paw_ae_wfc` when
`use_ps_wav` is true and `paw_ps_wfc` when it is false (`if use_ps_wav:
wav = self.paw_ae_wfc / else: wav = self.paw_ps_wfc`). -/
def get_integral_1234 (sp : Species) (G : GauntFun) (use_ps_wav : Bool) :
    ℕ → ℕ → ℕ → ℕ → ℝ :=
  integral_1234_wav sp G (if use_ps_wav then sp.paw_ae_wfc else sp.paw_ps_wfc)

/-! ### `get_integral_phi12_gl`: pseudo-wave / compensation-charge cross term -/

/-- The radial part of `get_integral_phi12_gl` exactly as the source computes
it: the `r'` loop runs over `enumerate(glr[l, 0:rcomp_idx])`, so `irp` ranges
over indices `< rcomp_idx` but the loop variable `rprime` is the value
`glr[l, irp]` of the compensation charge, and the code multiplies by
`rprime ** 2` (with a comment claiming it is `r'^2`); the inner `r` integral
is `radial_simp_int(..., inside_rcomp=False)`, i.e. over the whole grid. -/
def radial_integral_phi12 (sp : Species) (n1 n2 l3 l : ℕ) : ℝ :=
  ∑ irp in Finset.range sp.rcomp_idx,
    4 * Real.pi / (2 * (l : ℝ) + 1) *
      (radial_simp_int sp
          (fun i => sp.paw_ps_wfc n1 i * sp.paw_ps_wfc n2 i * rkern sp l irp i)
          false
        * sp.gl l irp ^ 2
        * sp.gl l3 irp
        * sp.rad_simp_w irp)

/-- Version of the cross-term radial integral following the claim's words:
both the `r` and the `r'` variables range only over grid points strictly
inside the augmentation sphere (`inside_rcomp=True` for the inner Simpson
integral), and the `r'` quadrature weight is `rgrid[irp]^2`, the square of
the radial coordinate. -/
def radial_integral_phi12_claimed (sp : Species) (n1 n2 l3 l : ℕ) : ℝ :=
  ∑ irp in Finset.range sp.rcomp_idx,
    4 * Real.pi / (2 * (l : ℝ) + 1) *
      (radial_simp_int sp
          (fun i => sp.paw_ps_wfc n1 i * sp.paw_ps_wfc n2 i * rkern sp l irp i)
          true
        * sp.rgrid irp ^ 2
        * sp.gl l3 irp
        * sp.rad_simp_w irp)

/-- The assembly loop of `get_integral_phi12_gl`: entry `(i1, i2, iL)` with
`(l3, m3) = lmidx[iL]` sums over `(l, m)` in `lmidx` the value
`radial_integral[n1,n2,l3,l] * 2√π * G12 * GauntTable(l3,l,0,m3,m,0)`,
skipping terms with `|G12| < 1e-6`. -/
def get_integral_phi12_gl (sp : Species) (G : GauntFun) (i1 i2 iL : ℕ) : ℝ :=
  let c1 := sp.ilm i1
  let c2 := sp.ilm i2
  let lm3 := (lmidx sp).getD iL (0, 0)
  ((lmidx sp).map fun lm =>
    let G12 := G c1.2.1 c2.2.1 lm.1 c1.2.2 c2.2.2 lm.2
    if |G12| < gaunt_eps then 0
    else radial_integral_phi12 sp c1.1 c2.1 lm3.1 lm.1
         * 2 * Real.sqrt Real.pi * G12
         * G lm3.1 lm.1 0 lm3.2 lm.2 0).sum

/-! ### `get_integral_gl`: compensation-charge self term -/

/-- The quantity accumulated by one iteration `(l1, m1)` of the outer loop of
`get_integral_gl`: the sum over `(l2, m2)` in `lmidx` (skipping
`|Gaunt| < 1e-6`) of the `r'`-restricted double radial integral of
`r² r'² r_<^l2/r_>^(l2+1) gl_l1(r) gl_l1(r')` times `4π/(2·l2+1)` and the
squared Gaunt coefficient `GauntTable(l1,l2,0,m1,m2,0)²`. -/
def integral_gl_entry (sp : Species) (G : GauntFun) (l1 : ℕ) (m1 : ℤ) : ℝ :=
  ((lmidx sp).map fun lm2 =>
    let Gl1l2 := G l1 lm2.1 0 m1 lm2.2 0
    if |Gl1l2| < gaunt_eps then 0
    else ∑ irp in Finset.range sp.rcomp_idx,
      4 * Real.pi / (2 * (lm2.1 : ℝ) + 1) *
        radial_simp_int sp
          (fun i => sp.rgrid i ^ 2 * sp.rgrid irp ^ 2 * rkern sp lm2.1 irp i
                    * sp.gl l1 i * sp.gl l1 irp)
          false
        * Gl1l2 ^ 2 * sp.rad_simp_w irp).sum

/-- `get_integral_gl` as the source stores it: the accumulation statement is
`integral_gl[l1] += ...` — indexed by the angular momentum value `l1`, not by
the position `iL1` of `(l1, m1)` in the enumeration — so entry `j` collects
the contributions of every enumeration pair whose `l1` equals `j`. -/
def get_integral_gl (sp : Species) (G : GauntFun) (j : ℕ) : ℝ :=
  ((lmidx sp).map fun lm1 =>
    if lm1.1 = j then integral_gl_entry sp G lm1.1 lm1.2 else 0).sum

/-- Version of the self-term array following the claim's words: the entry for
`L = (l, m)` sits at the position of `L` in the lexicographic `(l, m)`
enumeration and holds the Gaunt-weighted self-interaction of `g_l` for that
single angular index. -/
def integral_gl_claimed (sp : Species) (G : GauntFun) (iL : ℕ) : ℝ :=
  let lm := (lmidx sp).getD iL (0, 0)
  integral_gl_entry sp G lm.1 lm.2

/-! ### `get_DeltaC_1234`: the assembled PAW correction tensor -/

/-- Modelled from the spec: the Bohr radius in Angstrom, `AUTOA` of
`vasp_constant.py` (not under `src/`). -/
def AUTOA : ℝ := 0.52917721

/-- Modelled from the spec: Rydberg in eV (half the Hartree energy),
`RYTOEV` of `vasp_constant.py` (not under `src/`). -/
def RYTOEV : ℝ := 13.605693

/-- Modelled from the spec: `TPI = 2π` of `vasp_constant.py` (not under
`src/`). -/
def TPI : ℝ := 2 * Real.pi

/-- Modelled from the spec: `EDEPS = 4π·2·RYTOEV·AUTOA` of
`vasp_constant.py` (not under `src/`), the positive constant VASP uses to
express `4π e²/ε₀` in eV·Angstrom. -/
def EDEPS : ℝ := 4 * Real.pi * 2 * RYTOEV * AUTOA

/-- `get_DeltaC_1234`: `first_term` is
`0.5 * (get_integral_1234(use_ps_wav=False) - get_integral_1234(use_ps_wav=True))`,
`second_term` sums over `iL` the combination
`0.5 * (Δ[iL,i1,i2]·Iφg[i1,i2,iL] + Δ[iL,i3,i4]·Iφg[i3,i4,iL]) + Δ[iL,i1,i2]·Igl[iL]·Δ[iL,i3,i4]`,
and the result is `(first_term - second_term) * AUTOA * 2 * RYTOEV`. -/
def get_DeltaC_1234 (sp : Species) (G : GauntFun) (i1 i2 i3 i4 : ℕ) : ℝ :=
  ((1 / 2) * (get_integral_1234 sp G false i1 i2 i3 i4 -
              get_integral_1234 sp G true i1 i2 i3 i4)
   - ∑ iL in Finset.range (lmidx sp).length,
       ((1 / 2) * (get_Delta_Li1i2 sp G iL i1 i2 * get_integral_phi12_gl sp G i1 i2 iL
                   + get_Delta_Li1i2 sp G iL i3 i4 * get_integral_phi12_gl sp G i3 i4 iL)
        + get_Delta_Li1i2 sp G iL i1 i2 * get_integral_gl sp G iL
          * get_Delta_Li1i2 sp G iL i3 i4))
  * AUTOA * 2 * RYTOEV

/-! ### `PWCoulombIntegral`: plane-wave part -/

/-- `density_matrix(m, n) = fftn(conj(um) * un)`, with the real-space band
amplitudes `wfc` (from the external wavefunction reader) and the external
FFT primitive `fft` acting on the flattened grid. -/
def density_matrix (fft : (ℕ → ℂ) → ℕ → ℂ) (wfc : ℕ → ℕ → ℂ)
    (m n : ℕ) : ℕ → ℂ :=
  fft fun i => conj (wfc m i) * wfc n i

/-- `PWCoulombIntegral.coulomb_integral(m, n, p, q)`: drop the `G = 0` entry
(flattened index `0`), sum `conj(ρ_mn[i]) * ρ_pq[i] / Gsqr[i]` over the
remaining indices, and scale by `EDEPS / Omega / TPI²`. -/
def pw_coulomb_integral (N : ℕ) (fft : (ℕ → ℂ) → ℕ → ℂ) (wfc : ℕ → ℕ → ℂ)
    (Gsqr : ℕ → ℝ) (Omega : ℝ) (m n p q : ℕ) : ℂ :=
  (∑ i in Finset.Ico 1 N,
      conj (density_matrix fft wfc m n i) * density_matrix fft wfc p q i
        / (Gsqr i : ℂ))
    * ((EDEPS / Omega / TPI ^ 2 : ℝ) : ℂ)

/-! ### Concrete instances used as test inputs -/

/-- The constant Gaunt table `≡ 1`, a legitimate instantiation of the
external coefficient service for concrete evaluations. -/
def gauntOne : GauntFun := fun _ _ _ _ _ _ => 1

/-- A one-point, one-s-channel species whose all-electron and pseudo partial
waves differ (`φ_ae ≡ 2`, `φ_ps ≡ 1`). -/
def spC1 : Species where
  ngrid := 1
  rgrid := fun _ => 1
  rad_simp_w := fun _ => 1
  rcomp := 1
  rcomp_idx := 1
  proj_l := [0]
  paw_ae_wfc := fun _ _ => 2
  paw_ps_wfc := fun _ _ => 1
  ilm := fun _ => (0, 0, 0)
  gl := fun _ _ => 0

/-- Like `spC1` but with identical all-electron and pseudo partial waves. -/
def spC2 : Species :=
  { spC1 with paw_ae_wfc := fun _ _ => 1 }

/-- A two-point species with `rcomp_idx = 1`: pseudo waves `≡ 1`,
`rgrid = [1, 2]`, compensation charge `3` inside the sphere and `0` outside. -/
def spC3 : Species where
  ngrid := 2
  rgrid := fun i => (i : ℝ) + 1
  rad_simp_w := fun _ => 1
  rcomp := 1
  rcomp_idx := 1
  proj_l := [0]
  paw_ae_wfc := fun _ _ => 1
  paw_ps_wfc := fun _ _ => 1
  ilm := fun _ => (0, 0, 0)
  gl := fun _ i => if i < 1 then 3 else 0

/-- A one-point species with a single `p` projector, so `lmax = 3` and the
`(l, m)` enumeration has nine entries. -/
def spC4 : Species where
  ngrid := 1
  rgrid := fun _ => 1
  rad_simp_w := fun _ => 1
  rcomp := 1
  rcomp_idx := 1
  proj_l := [1]
  paw_ae_wfc := fun _ _ => 1
  paw_ps_wfc := fun _ _ => 1
  ilm := fun _ => (0, 0, 0)
  gl := fun _ _ => 1

/-! ### Helper lemmas -/

lemma radial_simp_int_congr (sp : Species) (f g : ℕ → ℝ) (b : Bool)
    (h : ∀ i, f i = g i) : radial_simp_int sp f b = radial_simp_int sp g b := by
  unfold radial_simp_int
  cases b <;> simp only [Bool.false_eq_true, if_false, if_true] <;>
    exact Finset.sum_congr rfl fun i _ => by rw [h i]

lemma radial_simp_int_zero (sp : Species) (b : Bool) :
    radial_simp_int sp (fun _ => 0) b = 0 := by
  unfold radial_simp_int
  cases b <;> simp

lemma rkern_symm (sp : Species) (l i j : ℕ) :
    rkern sp l i j = rkern sp l j i := by
  unfold rkern
  rw [min_comm, max_comm]

/-- If the bracket function never changes sign past the start point, the
bracket-expansion loop of `find_q` returns no result at any fuel bound. -/
lemma expand_bracket_none (f : ℚ → ℚ) (fx1 : ℚ) :
    ∀ (fuel : ℕ) (x2 : ℚ), (∀ k : ℕ, fx1 * f (x2 + k) > 0) →
      expand_bracket f fx1 x2 fuel = none := by
  intro fuel
  induction fuel with
  | zero => intro x2 _; rfl
  | succ n ih =>
    intro x2 h
    have h0 : fx1 * f x2 > 0 := by simpa using h 0
    have step : ∀ k : ℕ, fx1 * f (x2 + 1 + k) > 0 := by
      intro k
      have harg : x2 + 1 + (k : ℚ) = x2 + ((k + 1 : ℕ) : ℚ) := by push_cast; ring
      rw [harg]
      exact h (k + 1)
    simp only [expand_bracket, if_pos h0]
    exact ih (x2 + 1) step

lemma delta_radial_zero (sp : Species) (h : sp.paw_ae_wfc = sp.paw_ps_wfc)
    (l n1 n2 : ℕ) : delta_radial sp l n1 n2 = 0 := by
  unfold delta_radial
  rw [h]
  rw [radial_simp_int_congr sp _ (fun _ => 0) false (fun i => by ring)]
  exact radial_simp_int_zero sp false

lemma solve2_solves (a b c d e f : ℝ) (h : a * d - b * c ≠ 0) :
    a * (solve2 a b c d e f).1 + b * (solve2 a b c d e f).2 = e ∧
    c * (solve2 a b c d e f).1 + d * (solve2 a b c d e f).2 = f := by
  unfold solve2
  constructor <;> field_simp <;> ring

lemma gauntOne_not_small : ¬ |(1 : ℝ)| < gaunt_eps := by
  rw [abs_one, gaunt_eps]
  norm_num

/-! ### Claim theorems -/

/-- C7: after `set_comp_function` completes, the stored compensation charge
is exactly zero at every grid point outside the augmentation sphere — at
every index `≥ rcomp_idx`, equivalently (given that `rcomp_idx` marks the
cutoff radius on the grid) at every radius `≥ rcomp`; the table is immutable
afterwards, the integral routines only read it. -/
theorem C7_gl_zero_outside_rcomp (sp : Species) (sjn : ℕ → ℝ → ℝ)
    (a q : ℕ → ℝ × ℝ)
    (hidx : ∀ i, sp.rcomp ≤ sp.rgrid i → sp.rcomp_idx ≤ i)
    (l i : ℕ) (h : sp.rcomp_idx ≤ i ∨ sp.rcomp ≤ sp.rgrid i) :
    set_comp_function_gl sp sjn a q l i = 0 := by
  have hi : sp.rcomp_idx ≤ i := h.elim id (hidx i)
  unfold set_comp_function_gl
  rw [if_pos hi]

/-- Species for the C7 witness: cutoff index `0`, so every grid point lies
outside the augmentation sphere. -/
def spC7 : Species :=
  { spC1 with rcomp_idx := 0 }

theorem C7_witness :
    (∀ i, spC7.rcomp ≤ spC7.rgrid i → spC7.rcomp_idx ≤ i) ∧
    (spC7.rcomp_idx ≤ 5 ∨ spC7.rcomp ≤ spC7.rgrid 5) ∧
    set_comp_function_gl spC7 (fun _ _ => 1) (fun _ => (1, 1)) (fun _ => (1, 1)) 0 5 = 0 :=
  ⟨fun i _ => Nat.zero_le i, Or.inl (Nat.zero_le 5),
   C7_gl_zero_outside_rcomp spC7 (fun _ _ => 1) (fun _ => (1, 1)) (fun _ => (1, 1))
     (fun i _ => Nat.zero_le i) 0 5 (Or.inl (Nat.zero_le 5))⟩

/-- C8, amended: the bracket-expansion loop of `find_q` has no step bound and
no `RootNotFound` failure branch; it increments the upper endpoint by `1.0`
until a sign change appears, and when the function never changes sign past
the start point it yields no result at any finite step bound — it searches
indefinitely instead of failing. -/
theorem C8_bracket_search_unbounded (f : ℚ → ℚ) (fx1 x2 : ℚ)
    (h : ∀ k : ℕ, fx1 * f (x2 + k) > 0) (fuel : ℕ) :
    expand_bracket f fx1 x2 fuel = none :=
  expand_bracket_none f fx1 fuel x2 h

/-- C8, counterexample to the claim as stated: on a function with no sign
change (constantly `1`) the bracket search of `find_q` produces no outcome at
every step bound — there is no bound after which a `RootNotFound` error
condition is reported, contradicting the claimed bounded-failure behaviour. -/
theorem C8_counterexample :
    (fun fuel => expand_bracket (fun _ => 1) 1 2 fuel) = fun _ => none :=
  funext fun fuel =>
    expand_bracket_none (fun _ => 1) 1 fuel 2 (fun _ => mul_pos one_pos one_pos)

theorem C8_witness :
    (∀ k : ℕ, (1 : ℚ) * (fun _ : ℚ => (1 : ℚ)) (2 + (k : ℚ)) > 0) ∧
    expand_bracket (fun _ : ℚ => 1) 1 2 9 = none :=
  ⟨fun _ => mul_pos one_pos one_pos,
   C8_bracket_search_unbounded (fun _ : ℚ => 1) 1 2 (fun _ => mul_pos one_pos one_pos) 9⟩

/-- C2: for a species whose all-electron partial-wave table coincides
pointwise with its pseudo table, `get_DeltaC_1234` is zero (exactly, in the
real-number model) at every index quadruple: the four-center difference
vanishes and every compensation term carries a factor `Δ = 0`. -/
theorem C2_DeltaC_vanishes (sp : Species) (G : GauntFun)
    (h : sp.paw_ae_wfc = sp.paw_ps_wfc) (i1 i2 i3 i4 : ℕ) :
    get_DeltaC_1234 sp G i1 i2 i3 i4 = 0 := by
  have hΔ : ∀ iL j1 j2, get_Delta_Li1i2 sp G iL j1 j2 = 0 := by
    intro iL j1 j2
    simp [get_Delta_Li1i2, delta_radial_zero sp h]
  have h14 : get_integral_1234 sp G false = get_integral_1234 sp G true := by
    unfold get_integral_1234
    rw [h]
    simp
  unfold get_DeltaC_1234
  rw [h14]
  simp [hΔ]

theorem C2_witness :
    spC2.paw_ae_wfc = spC2.paw_ps_wfc ∧
    get_DeltaC_1234 spC2 gauntOne 0 0 0 0 = 0 :=
  ⟨rfl, C2_DeltaC_vanishes spC2 gauntOne rfl 0 0 0 0⟩

/-- C6: the coefficients returned by `find_alpha` solve the stated 2×2
system — second row: the weighted integrals of the two Bessel terms combine
to `1`; first row: the derivative terms combine to `0` — and consequently,
for any linear integral functional agreeing with the quadrature values on the
two Bessel terms, the built compensation charge
`gl(r) = a1 j_l(q1 r) + a2 j_l(q2 r)` has `∫₀^rcomp gl(r) r^(l+2) dr = 1`
(exactly, in the real-number model, hence within the 1e-6 tolerance). -/
theorem C6_find_alpha_normalization
    (sjn sjnD : ℕ → ℝ → ℝ) (intJ : ℝ → ℝ → ℕ → ℝ) (R q1 q2 : ℝ) (l : ℕ)
    (hdet : q1 * sjnD l (q1 * R) * intJ R q2 l
            - q2 * sjnD l (q2 * R) * intJ R q1 l ≠ 0)
    (I : (ℝ → ℝ) → ℝ)
    (hlin : ∀ f g : ℝ → ℝ, ∀ c d : ℝ,
      I (fun x => c * f x + d * g x) = c * I f + d * I g)
    (hI1 : I (fun x => sjn l (q1 * x) * x ^ (l + 2)) = intJ R q1 l)
    (hI2 : I (fun x => sjn l (q2 * x) * x ^ (l + 2)) = intJ R q2 l) :
    intJ R q1 l * (find_alpha sjnD intJ R q1 q2 l).1
      + intJ R q2 l * (find_alpha sjnD intJ R q1 q2 l).2 = 1 ∧
    q1 * sjnD l (q1 * R) * (find_alpha sjnD intJ R q1 q2 l).1
      + q2 * sjnD l (q2 * R) * (find_alpha sjnD intJ R q1 q2 l).2 = 0 ∧
    I (fun x => ((find_alpha sjnD intJ R q1 q2 l).1 * sjn l (q1 * x)
                 + (find_alpha sjnD intJ R q1 q2 l).2 * sjn l (q2 * x))
                * x ^ (l + 2)) = 1 := by
  unfold find_alpha
  obtain ⟨h0, h1⟩ := solve2_solves (q1 * sjnD l (q1 * R)) (q2 * sjnD l (q2 * R))
    (intJ R q1 l) (intJ R q2 l) 0 1 hdet
  refine ⟨h1, h0, ?_⟩
  have hfun : (fun x => ((solve2 (q1 * sjnD l (q1 * R)) (q2 * sjnD l (q2 * R))
        (intJ R q1 l) (intJ R q2 l) 0 1).1 * sjn l (q1 * x)
      + (solve2 (q1 * sjnD l (q1 * R)) (q2 * sjnD l (q2 * R))
        (intJ R q1 l) (intJ R q2 l) 0 1).2 * sjn l (q2 * x)) * x ^ (l + 2))
      = fun x => (solve2 (q1 * sjnD l (q1 * R)) (q2 * sjnD l (q2 * R))
        (intJ R q1 l) (intJ R q2 l) 0 1).1 * (sjn l (q1 * x) * x ^ (l + 2))
      + (solve2 (q1 * sjnD l (q1 * R)) (q2 * sjnD l (q2 * R))
        (intJ R q1 l) (intJ R q2 l) 0 1).2 * (sjn l (q2 * x) * x ^ (l + 2)) := by
    funext x
    ring
  rw [hfun, hlin, hI1, hI2]
  linear_combination h1

theorem C6_witness :
    ((1 : ℝ) * (fun _ x => x : ℕ → ℝ → ℝ) 0 (1 * 1) * (fun _ q _ => 1 - q : ℝ → ℝ → ℕ → ℝ) 1 0 0
      - 0 * (fun _ x => x : ℕ → ℝ → ℝ) 0 (0 * 1) * (fun _ q _ => 1 - q : ℝ → ℝ → ℕ → ℝ) 1 1 0 ≠ 0) ∧
    ((fun _ q _ => 1 - q : ℝ → ℝ → ℕ → ℝ) 1 1 0
        * (find_alpha (fun _ x => x) (fun _ q _ => 1 - q) 1 1 0 0).1
      + (fun _ q _ => 1 - q : ℝ → ℝ → ℕ → ℝ) 1 0 0
        * (find_alpha (fun _ x => x) (fun _ q _ => 1 - q) 1 1 0 0).2 = 1 ∧
     (1 : ℝ) * (fun _ x => x : ℕ → ℝ → ℝ) 0 (1 * 1)
        * (find_alpha (fun _ x => x) (fun _ q _ => 1 - q) 1 1 0 0).1
      + 0 * (fun _ x => x : ℕ → ℝ → ℝ) 0 (0 * 1)
        * (find_alpha (fun _ x => x) (fun _ q _ => 1 - q) 1 1 0 0).2 = 0 ∧
     (fun f : ℝ → ℝ => f 1)
       (fun x => ((find_alpha (fun _ x => x) (fun _ q _ => 1 - q) 1 1 0 0).1
                    * (fun _ x => 1 - x : ℕ → ℝ → ℝ) 0 (1 * x)
                  + (find_alpha (fun _ x => x) (fun _ q _ => 1 - q) 1 1 0 0).2
                    * (fun _ x => 1 - x : ℕ → ℝ → ℝ) 0 (0 * x)) * x ^ (0 + 2)) = 1) :=
  ⟨by simp,
   C6_find_alpha_normalization (fun _ x => 1 - x) (fun _ x => x) (fun _ q _ => 1 - q)
     1 1 0 0 (by simp) (fun f : ℝ → ℝ => f 1) (fun _ _ _ _ => rfl) (by simp) (by simp)⟩

/-- C9: the plane-wave Coulomb integral with all four band indices equal is a
real, non-negative number: each retained summand is `|ρ(G)|²/|G|² ≥ 0` and
the scale `EDEPS/Ω/(2π)²` is positive.  (Holds for any density, real-valued
or not.) -/
theorem C9_self_integral_real_nonneg (N : ℕ) (fft : (ℕ → ℂ) → ℕ → ℂ)
    (wfc : ℕ → ℕ → ℂ) (Gsqr : ℕ → ℝ) (Omega : ℝ) (b : ℕ)
    (hG : ∀ i ∈ Finset.Ico 1 N, 0 < Gsqr i) (hO : 0 < Omega) :
    (pw_coulomb_integral N fft wfc Gsqr Omega b b b b).im = 0 ∧
    0 ≤ (pw_coulomb_integral N fft wfc Gsqr Omega b b b b).re := by
  unfold pw_coulomb_integral
  have hsum : (∑ i in Finset.Ico 1 N,
      conj (density_matrix fft wfc b b i) * density_matrix fft wfc b b i
        / (Gsqr i : ℂ))
      = ((∑ i in Finset.Ico 1 N,
          Complex.normSq (density_matrix fft wfc b b i) / Gsqr i : ℝ) : ℂ) := by
    rw [Complex.ofReal_sum]
    refine Finset.sum_congr rfl fun i _ => ?_
    rw [Complex.ofReal_div]
    congr 1
    rw [Complex.normSq_eq_conj_mul_self]
  rw [hsum, ← Complex.ofReal_mul]
  have hS : 0 ≤ ∑ i in Finset.Ico 1 N,
      Complex.normSq (density_matrix fft wfc b b i) / Gsqr i :=
    Finset.sum_nonneg fun i hi =>
      div_nonneg (Complex.normSq_nonneg _) (hG i hi).le
  have hc : 0 ≤ EDEPS / Omega / TPI ^ 2 := by
    unfold EDEPS TPI RYTOEV AUTOA
    positivity
  exact ⟨Complex.ofReal_im _, by rw [Complex.ofReal_re]; exact mul_nonneg hS hc⟩

theorem C9_witness :
    (∀ i ∈ Finset.Ico 1 2, (0 : ℝ) < (fun _ => 1 : ℕ → ℝ) i) ∧ (0 : ℝ) < 1 ∧
    ((pw_coulomb_integral 2 (fun f => f) (fun _ _ => 1) (fun _ => 1) 1 0 0 0 0).im = 0 ∧
     0 ≤ (pw_coulomb_integral 2 (fun f => f) (fun _ _ => 1) (fun _ => 1) 1 0 0 0 0).re) :=
  ⟨fun _ _ => one_pos, one_pos,
   C9_self_integral_real_nonneg 2 (fun f => f) (fun _ _ => 1) (fun _ => 1) 1 0
     (fun _ _ => one_pos) one_pos⟩

/-- C10: swapping the two density-matrix pairs conjugates the plane-wave
Coulomb integral: `coulomb_integral(p, q, m, n) = conj(coulomb_integral(m, n, p, q))`,
because each summand of the G-sum is conjugated while `|G|²` and the real
scale factor are unchanged. -/
theorem C10_pair_swap_conjugation (N : ℕ) (fft : (ℕ → ℂ) → ℕ → ℂ)
    (wfc : ℕ → ℕ → ℂ) (Gsqr : ℕ → ℝ) (Omega : ℝ) (m n p q : ℕ) :
    pw_coulomb_integral N fft wfc Gsqr Omega p q m n =
      conj (pw_coulomb_integral N fft wfc Gsqr Omega m n p q) := by
  unfold pw_coulomb_integral
  rw [map_mul, map_sum]
  congr 1
  · refine Finset.sum_congr rfl fun i _ => ?_
    rw [map_div₀, map_mul]
    rw [Complex.conj_conj, Complex.conj_ofReal]
    ring
  · rw [Complex.conj_ofReal]

lemma radial_simp_int_false (sp : Species) (f : ℕ → ℝ) :
    radial_simp_int sp f false =
      ∑ i in Finset.range sp.ngrid, sp.rad_simp_w i * f i := rfl

lemma radial_integral_1234_swap12 (sp : Species) (wav : ℕ → ℕ → ℝ)
    (l n1 n2 n3 n4 : ℕ) :
    radial_integral_1234 sp wav l n1 n2 n3 n4 =
      radial_integral_1234 sp wav l n2 n1 n3 n4 := by
  unfold radial_integral_1234
  refine Finset.sum_congr rfl fun irp _ => ?_
  rw [radial_simp_int_congr sp _ (fun i => wav n2 i * wav n1 i * rkern sp l irp i) false
    (fun i => by ring)]

lemma radial_integral_1234_swap34 (sp : Species) (wav : ℕ → ℕ → ℝ)
    (l n1 n2 n3 n4 : ℕ) :
    radial_integral_1234 sp wav l n1 n2 n3 n4 =
      radial_integral_1234 sp wav l n1 n2 n4 n3 := by
  unfold radial_integral_1234
  refine Finset.sum_congr rfl fun irp _ => ?_
  ring

lemma radial_integral_1234_expand (sp : Species) (wav : ℕ → ℕ → ℝ)
    (l n1 n2 n3 n4 : ℕ) :
    radial_integral_1234 sp wav l n1 n2 n3 n4 =
      ∑ irp in Finset.range sp.ngrid, ∑ i in Finset.range sp.ngrid,
        sp.rad_simp_w i * wav n1 i * wav n2 i * rkern sp l irp i
          * wav n3 irp * wav n4 irp * sp.rad_simp_w irp := by
  unfold radial_integral_1234
  refine Finset.sum_congr rfl fun irp _ => ?_
  rw [radial_simp_int_false, Finset.sum_mul, Finset.sum_mul, Finset.sum_mul]
  refine Finset.sum_congr rfl fun i _ => ?_
  ring

lemma radial_integral_1234_pair_swap (sp : Species) (wav : ℕ → ℕ → ℝ)
    (l n1 n2 n3 n4 : ℕ) :
    radial_integral_1234 sp wav l n1 n2 n3 n4 =
      radial_integral_1234 sp wav l n3 n4 n1 n2 := by
  rw [radial_integral_1234_expand, radial_integral_1234_expand, Finset.sum_comm]
  refine Finset.sum_congr rfl fun irp _ => Finset.sum_congr rfl fun i _ => ?_
  rw [rkern_symm]
  ring

lemma gaunt_if_collapse (gval c other : ℝ) (hlow : |gval| < gaunt_eps → gval = 0) :
    (if |gval| < gaunt_eps then 0 else c * gval * other) = c * gval * other := by
  by_cases hg : |gval| < gaunt_eps
  · rw [if_pos hg, hlow hg]
    ring
  · rw [if_neg hg]

/-- Under the selection-rule convention that any Gaunt value below the `1e-6`
threshold is exactly zero, the pruning `if` in the four-center assembly loop
never changes a term's value. -/
lemma integral_1234_wav_unpruned (sp : Species) (G : GauntFun) (wav : ℕ → ℕ → ℝ)
    (Hlow : ∀ l1 l2 l : ℕ, ∀ m1 m2 m : ℤ,
      |G l1 l2 l m1 m2 m| < gaunt_eps → G l1 l2 l m1 m2 m = 0)
    (i1 i2 i3 i4 : ℕ) :
    integral_1234_wav sp G wav i1 i2 i3 i4 =
      ((lmidx sp).map fun lm =>
        4 * Real.pi / (2 * (lm.1 : ℝ) + 1)
          * radial_integral_1234 sp wav lm.1 (sp.ilm i1).1 (sp.ilm i2).1
              (sp.ilm i3).1 (sp.ilm i4).1
          * G (sp.ilm i1).2.1 (sp.ilm i2).2.1 lm.1 (sp.ilm i1).2.2 (sp.ilm i2).2.2 lm.2
          * G (sp.ilm i3).2.1 (sp.ilm i4).2.1 lm.1 (sp.ilm i3).2.2 (sp.ilm i4).2.2 lm.2).sum := by
  unfold integral_1234_wav
  congr 1
  refine List.map_congr_left fun lm _ => ?_
  exact gaunt_if_collapse _ _ _ (Hlow _ _ _ _ _ _)

lemma lmidx_spC1 : lmidx spC1 = [(0, 0)] := by decide

lemma lmidx_spC4 : lmidx spC4 =
    [(0, 0), (1, -1), (1, 0), (1, 1), (2, -2), (2, -1), (2, 0), (2, 1), (2, 2)] := by
  decide

/-- C1: counter to the claim's "in particular" clause, exhibited on a
concrete species whose all-electron and pseudo tables differ:
`get_integral_1234(use_ps_wav=False)` is NOT the all-electron four-center
tensor — the source's branch `if use_ps_wav: wav = self.paw_ae_wfc` selects
the tables the wrong way round, so `get_DeltaC_1234`'s first term evaluates
`½(pseudo − all-electron)` instead of the documented `½(all-electron − pseudo)`. -/
theorem C1_use_ps_wav_swapped :
    get_integral_1234 spC1 gauntOne false 0 0 0 0 ≠
      integral_1234_wav spC1 gauntOne spC1.paw_ae_wfc 0 0 0 0 := by
  simp only [get_integral_1234, Bool.false_eq_true, if_false]
  simp only [integral_1234_wav, lmidx_spC1, List.map_cons, List.map_nil, List.sum_cons,
    List.sum_nil]
  simp only [radial_integral_1234, radial_simp_int, rkern, spC1, gauntOne,
    Finset.sum_range_one, gauntOne_not_small, if_false]
  norm_num
  nlinarith [Real.pi_pos]

/-- C3: on a concrete species the cross-term radial integral computed by the
source differs from the claim's formula: the source integrates the inner `r`
variable over the whole grid (`inside_rcomp=False`) and weights the `r'` sum
by the square of the compensation-charge value `glr[l, irp]` instead of the
square of the radial coordinate `rgrid[irp]`. -/
theorem C3_cross_term_diverges :
    radial_integral_phi12 spC3 0 0 0 0 ≠
      radial_integral_phi12_claimed spC3 0 0 0 0 := by
  simp only [radial_integral_phi12, radial_integral_phi12_claimed, radial_simp_int,
    rkern, spC3, Finset.sum_range_one, Finset.sum_range_succ, Finset.sum_range_zero]
  norm_num [min_def, max_def]
  nlinarith [Real.pi_pos]

/-- C4: on a species with one `p` projector (`lmax = 3`, nine multipole
channels) the self-term array written by the source differs from the claim's
position-indexed array: the source writes `integral_gl[l1] += ...`, so the
entry at enumeration position 4 — the position of `L = (2, -2)` — stays zero
while the claimed entry there is a nonzero self-interaction sum. -/
theorem C4_integral_gl_misindexed :
    get_integral_gl spC4 gauntOne 4 ≠ integral_gl_claimed spC4 gauntOne 4 := by
  have hL : get_integral_gl spC4 gauntOne 4 = 0 := by
    simp only [get_integral_gl, lmidx_spC4, List.map_cons, List.map_nil, List.sum_cons,
      List.sum_nil]
    norm_num
  have hR : integral_gl_claimed spC4 gauntOne 4 = 12 * Real.pi := by
    simp only [integral_gl_claimed, lmidx_spC4, List.getD, List.getElem?_cons_succ,
      List.getElem?_cons_zero, integral_gl_entry, List.map_cons, List.map_nil,
      List.sum_cons, List.sum_nil]
    simp only [radial_simp_int, rkern, spC4, gauntOne, Finset.sum_range_one,
      gauntOne_not_small, if_false]
    norm_num
    ring
  rw [hL, hR]
  nlinarith [Real.pi_pos]

/-- C5: for every species and either value of `use_ps_wav`, the four-center
tensor has the two-electron exchange symmetries
`(12|34) = (21|34) = (12|43) = (34|12)`, provided the external Gaunt table is
symmetric in its first two `(l, m)` slots and its nonzero values are at least
`1e-6` in magnitude (so the pruning threshold only removes exact zeros). -/
theorem C5_exchange_symmetry (sp : Species) (G : GauntFun) (b : Bool)
    (Hsym : ∀ l1 l2 l : ℕ, ∀ m1 m2 m : ℤ, G l1 l2 l m1 m2 m = G l2 l1 l m2 m1 m)
    (Hlow : ∀ l1 l2 l : ℕ, ∀ m1 m2 m : ℤ,
      |G l1 l2 l m1 m2 m| < gaunt_eps → G l1 l2 l m1 m2 m = 0)
    (i1 i2 i3 i4 : ℕ) :
    get_integral_1234 sp G b i1 i2 i3 i4 = get_integral_1234 sp G b i2 i1 i3 i4 ∧
    get_integral_1234 sp G b i1 i2 i3 i4 = get_integral_1234 sp G b i1 i2 i4 i3 ∧
    get_integral_1234 sp G b i1 i2 i3 i4 = get_integral_1234 sp G b i3 i4 i1 i2 := by
  unfold get_integral_1234
  refine ⟨?_, ?_, ?_⟩ <;>
    rw [integral_1234_wav_unpruned _ _ _ Hlow, integral_1234_wav_unpruned _ _ _ Hlow] <;>
    (congr 1; refine List.map_congr_left fun lm _ => ?_)
  · rw [radial_integral_1234_swap12, Hsym (sp.ilm i1).2.1 (sp.ilm i2).2.1 lm.1
      (sp.ilm i1).2.2 (sp.ilm i2).2.2 lm.2]
  · rw [radial_integral_1234_swap34, Hsym (sp.ilm i3).2.1 (sp.ilm i4).2.1 lm.1
      (sp.ilm i3).2.2 (sp.ilm i4).2.2 lm.2]
  · rw [radial_integral_1234_pair_swap]
    ring

theorem C5_witness :
    (∀ l1 l2 l : ℕ, ∀ m1 m2 m : ℤ,
      gauntOne l1 l2 l m1 m2 m = gauntOne l2 l1 l m2 m1 m) ∧
    (∀ l1 l2 l : ℕ, ∀ m1 m2 m : ℤ,
      |gauntOne l1 l2 l m1 m2 m| < gaunt_eps → gauntOne l1 l2 l m1 m2 m = 0) ∧
    (get_integral_1234 spC1 gauntOne false 0 1 2 3 =
       get_integral_1234 spC1 gauntOne false 1 0 2 3 ∧
     get_integral_1234 spC1 gauntOne false 0 1 2 3 =
       get_integral_1234 spC1 gauntOne false 0 1 3 2 ∧
     get_integral_1234 spC1 gauntOne false 0 1 2 3 =
       get_integral_1234 spC1 gauntOne false 2 3 0 1) :=
  ⟨fun _ _ _ _ _ _ => rfl,
   fun _ _ _ _ _ _ h => absurd h gauntOne_not_small,
   C5_exchange_symmetry spC1 gauntOne false (fun _ _ _ _ _ _ => rfl)
     (fun _ _ _ _ _ _ h => absurd h gauntOne_not_small) 0 1 2 3⟩
